import Mathlib

/-!
Verification of the thumbnail-cache and image-discovery core of `pic_url`
(`src/main.rs`).  Filesystem paths are modelled as lists of path segments;
the two subsystems are embedded separately:

* discovery (`collect_images` / `api_images`): the directory tree that a
  recursive walk observes is a value of the inductive type `Entry`, where a
  directory carries `Option (List Entry)` (`none` models a `read_dir` call
  that fails);
* the thumbnail cache (`ensure_thumbnail` / `serve_thumbnail`): the
  filesystem is a state `FsState` mapping paths to file records (with
  last-modified times and decode/encode behaviour of the file's bytes),
  plus a set of directories and a clock supplying modification times for
  newly written files.

Strings are compared and lowercased at the character-list level (Rust
compares `String`s by bytes, which on valid UTF-8 agrees with
code-point-wise lexicographic order; `to_lowercase` agrees with
character-wise lowering on all strings whose lowercase form could equal
one of the ASCII extension names compared against).
-/

namespace PicUrl

/-- A filesystem path, as a list of path segments. -/
abbrev FPath := List String

/-- The characters strictly after the last `.` of a list, when a dot
occurs in it. -/
def afterLastDot : List Char → Option (List Char)
  | [] => none
  | c :: cs =>
    match afterLastDot cs with
    | some s => some s
    | none => if c = '.' then some cs else none

/-- `Path::extension` of a file name (Rust semantics): the part after the
last `.`, provided some dot occurs at an index greater than zero; a name
with no dot, or whose only dot is leading, has no extension. -/
def extension (name : String) : Option String :=
  match name.toList with
  | [] => none
  | _ :: cs => (afterLastDot cs).map (fun l => String.mk l)

/-- Character-wise lowercasing, modelling `str::to_lowercase`. -/
def lowercase (s : String) : String :=
  String.mk (s.toList.map Char.toLower)

/-- `is_image_file` (main.rs line 41): the path's last segment has an
extension whose lowercase form is one of the seven allowed image
extensions. -/
def is_image_file (p : FPath) : Bool :=
  match p.getLast? with
  | none => false
  | some name =>
    match extension name with
    | none => false
    | some ext =>
      let e := lowercase ext
      e = "jpg" || e = "jpeg" || e = "png" || e = "gif" || e = "webp" ||
        e = "bmp" || e = "ico"

example : is_image_file ["a", "cat.PNG"] = true := by decide
example : is_image_file ["notes.txt"] = false := by decide
example : is_image_file ["README"] = false := by decide
example : is_image_file [".thumbnails"] = false := by decide

/-- A directory entry as observed by the recursive walk: a file, or a
directory whose `read_dir` either fails (`none`) or yields a list of
entries in filesystem enumeration order. -/
inductive Entry where
  | file : String → Entry
  | dir : String → Option (List Entry) → Entry
deriving Repr

mutual

/-- One step of `collect_images` (main.rs line 127) on a single directory
entry at relative location `rel`: a directory is descended exactly when its
name differs from `.thumbnails` and its `read_dir` succeeds; a file is kept
exactly when `is_image_file` accepts it. -/
def collectEntry (rel : List String) : Entry → List FPath
  | .file name =>
    if is_image_file (rel ++ [name]) then [rel ++ [name]] else []
  | .dir name c =>
    if name = ".thumbnails" then []
    else
      match c with
      | some es => collectEntries (rel ++ [name]) es
      | none => []

/-- `collect_images`' loop over the entries of one directory. -/
def collectEntries (rel : List String) : List Entry → List FPath
  | [] => []
  | e :: es => collectEntry rel e ++ collectEntries rel es

end

/-- `collect_images(dir, base, &mut images)` started on a directory whose
`read_dir` result is `c` (a failed read contributes nothing). -/
def collect_images (rel : List String) (c : Option (List Entry)) : List FPath :=
  match c with
  | some es => collectEntries rel es
  | none => []

/-- Rendering of a relative path the way Rust's `to_string_lossy` renders
a `strip_prefix` result: segments joined by `/`. -/
def renderPath : FPath → String
  | [] => ""
  | [s] => s
  | s :: rest => s ++ "/" ++ renderPath rest

/-- Byte-lexicographic `≤` on character lists (Rust `String` ordering). -/
def charListLe : List Char → List Char → Bool
  | [], _ => true
  | _ :: _, [] => false
  | a :: as, b :: bs =>
    if a < b then true else if b < a then false else charListLe as bs

/-- `≤` on strings as Rust's `sort` compares them. -/
def strLe (a b : String) : Bool :=
  charListLe a.toList b.toList

/-- The sorting relation used to model `Vec::sort` on `Vec<String>`. -/
def strLeProp (a b : String) : Prop :=
  strLe a b = true

instance : DecidableRel strLeProp := fun a b => instDecidableEqBool (strLe a b) true

/-- The image list built by `api_images` (main.rs line 144): walk the root
with `collect_images`, then sort the rendered relative paths. -/
def api_images (root : Option (List Entry)) : List String :=
  List.insertionSort strLeProp ((collect_images [] root).map renderPath)

example :
    api_images (some [Entry.dir "b" (some [Entry.file "z.png"]),
      Entry.file "a.jpg", Entry.dir ".thumbnails" (some [Entry.file "x.png"])]) =
    ["a.jpg", "b/z.png"] := by decide

/-! ## The thumbnail cache -/

/-- What the cache subsystem observes about one regular file: its
last-modified time, whether the `fs::metadata`/`modified()` reads for it
succeed, and whether the bytes at it decode as an image
(`image::open`) and re-encode to its extension's format (`save`). -/
structure FileData where
  mtime : Nat
  mtimeOk : Bool
  decodeOk : Bool
  encodeOk : Bool
deriving Repr, DecidableEq

/-- The filesystem as the cache subsystem interacts with it: regular
files, directories, and a clock stamping newly written files. -/
structure FsState where
  file : FPath → Option FileData
  dir : FPath → Bool
  clock : Nat

/-- `Path::exists`: true for a regular file or a directory. -/
def pathExists (s : FsState) (p : FPath) : Bool :=
  (s.file p).isSome || s.dir p

/-- `fs::metadata(p)?.modified()?`: the last-modified time of the regular
file at `p`, `none` when the path is no regular file or either read
fails. -/
def getMtime (s : FsState) (p : FPath) : Option Nat :=
  match s.file p with
  | some fd => if fd.mtimeOk then some fd.mtime else none
  | none => none

/-- `get_thumbnail_path` (main.rs line 68): join the cache directory with
the relative path, preserving subdirectory structure. -/
def get_thumbnail_path (thumb_dir relative_path : FPath) : FPath :=
  thumb_dir ++ relative_path

/-- `fs::create_dir_all(d)`: succeeds (creating every missing ancestor,
pre-existing directories being no error) unless some prefix of `d` exists
as a regular file. -/
def create_dir_all (s : FsState) (d : FPath) : Option FsState :=
  if d.inits.all (fun q => (s.file q).isNone) then
    some { s with dir := fun q => if q ∈ d.inits then true else s.dir q }
  else none

/-- The new dimensions computed by `generate_thumbnail` (main.rs lines
54-56): both sides scaled by `THUMB_SIZE / max(width, height)` and
truncated (the source computes the scale in `f32`; the model scales
exactly and truncates, which is what the cast `as u32` does). -/
def thumbnail_dimensions (width height : Nat) : Nat × Nat :=
  (width * 200 / max width height, height * 200 / max width height)

/-- `generate_thumbnail` (main.rs line 50): decode the source, resize,
create the thumbnail's parent directories, save.  The Boolean is the
`Result` (`false` models an `Err` return: decode, directory-creation, or
encode failure); the state threads the side effects performed up to the
failure point, so an encode failure keeps the directories already
created.  On success the resized image is written at `thumb_path` with
the current clock as its modification time. -/
def generate_thumbnail (s : FsState) (src_path thumb_path : FPath) :
    Bool × FsState :=
  match s.file src_path with
  | none => (false, s)
  | some fd =>
    if fd.decodeOk then
      match create_dir_all s thumb_path.dropLast with
      | some s₁ =>
        if fd.encodeOk then
          (true, { s₁ with
            file := fun q =>
              if q = thumb_path then some ⟨s.clock, true, true, true⟩
              else s₁.file q })
        else (false, s₁)
      | none => (false, s)
    else (false, s)

/-- The cache-validity test of `ensure_thumbnail` (main.rs lines 75-83):
the candidate exists, all four metadata/modified reads succeed, and the
thumbnail's modified time is at least the source's. -/
def cache_hit (s : FsState) (src_path thumb_path : FPath) : Bool :=
  pathExists s thumb_path &&
    match getMtime s src_path, getMtime s thumb_path with
    | some src_time, some thumb_time => decide (src_time ≤ thumb_time)
    | _, _ => false

/-- `ensure_thumbnail` (main.rs line 72): return the candidate path on a
cache hit, otherwise regenerate; a failed generation yields `none` and
leaves the state as generation left it (no write happened). -/
def ensure_thumbnail (s : FsState) (thumb_dir src_path relative_path : FPath) :
    Option FPath × FsState :=
  if cache_hit s src_path (get_thumbnail_path thumb_dir relative_path) then
    (some (get_thumbnail_path thumb_dir relative_path), s)
  else
    match generate_thumbnail s src_path (get_thumbnail_path thumb_dir relative_path) with
    | (true, s') => (some (get_thumbnail_path thumb_dir relative_path), s')
    | (false, s') => (none, s')

/-- Outcome of one `/thumb/<path>` resolution: `ok` with the served
thumbnail path, a 404, or a 500 after a failed generation. -/
inductive ResolveOutcome where
  | ok : FPath → ResolveOutcome
  | notFound : ResolveOutcome
  | generationFailed : ResolveOutcome
deriving Repr, DecidableEq

/-- The cache directory: `AppConfig::new` fixes it to `<pic_dir>/.thumbnails`
(main.rs line 21). -/
def thumb_dir_of (pic_dir : FPath) : FPath :=
  pic_dir ++ [".thumbnails"]

/-- `serve_thumbnail` (main.rs line 94): 404 when the joined source path
does not exist or fails the image-extension check, otherwise resolve
through `ensure_thumbnail`. -/
def serve_thumbnail (s : FsState) (pic_dir relative_path : FPath) :
    ResolveOutcome × FsState :=
  if !(pathExists s (pic_dir ++ relative_path)) ||
      !(is_image_file (pic_dir ++ relative_path)) then
    (.notFound, s)
  else
    match ensure_thumbnail s (thumb_dir_of pic_dir) (pic_dir ++ relative_path)
        relative_path with
    | (some t, s') => (.ok t, s')
    | (none, s') => (.generationFailed, s')

/-! ## Helper lemmas about the cache embedding -/

/-- The state produced by a successful thumbnail generation: the resized
image written at `p` stamped with the clock, every ancestor directory of
`p` present, everything else untouched. -/
def writtenState (s : FsState) (p : FPath) : FsState :=
  { file := fun q => if q = p then some ⟨s.clock, true, true, true⟩ else s.file q,
    dir := fun q => if q ∈ p.dropLast.inits then true else s.dir q,
    clock := s.clock }

/-- The state after only the directory-creation step for the thumbnail at
`p` (what a generation failing at the encode step leaves behind). -/
def dirsEnsured (s : FsState) (p : FPath) : FsState :=
  { s with dir := fun q => if q ∈ p.dropLast.inits then true else s.dir q }

theorem pathExists_of_getMtime {s : FsState} {p : FPath} {t : Nat}
    (h : getMtime s p = some t) : pathExists s p = true := by
  unfold getMtime at h
  unfold pathExists
  cases hf : s.file p with
  | none => rw [hf] at h; cases h
  | some fd => simp

theorem generate_thumbnail_fst_eq {s : FsState} {x p : FPath}
    (h : (generate_thumbnail s x p).1 = true) :
    (generate_thumbnail s x p).2 = writtenState s p := by
  rcases hf : s.file x with _ | fd
  · simp [generate_thumbnail, hf] at h
  · by_cases hdec : fd.decodeOk = true
    · rcases hc : create_dir_all s p.dropLast with _ | s₁
      · simp [generate_thumbnail, hf, hdec, hc] at h
      · by_cases henc : fd.encodeOk = true
        · have hs₁ : s₁ = dirsEnsured s p := by
            unfold create_dir_all at hc
            split at hc
            · cases hc; rfl
            · cases hc
          simp [generate_thumbnail, hf, hdec, hc, henc, hs₁, writtenState,
            dirsEnsured]
        · simp [generate_thumbnail, hf, hdec, hc, henc] at h
    · simp [generate_thumbnail, hf, hdec] at h

theorem generate_thumbnail_eq_some {s : FsState} {x p : FPath} {f : FileData}
    (hf : s.file x = some f) (h1 : f.decodeOk = true) (h2 : f.encodeOk = true)
    (h3 : (p.dropLast.inits.all fun q => (s.file q).isNone) = true) :
    generate_thumbnail s x p = (true, writtenState s p) := by
  simp [generate_thumbnail, create_dir_all, writtenState, hf, h1, h2, h3]

theorem generate_thumbnail_state (s : FsState) (x p : FPath) :
    (generate_thumbnail s x p).2 = s ∨
      (generate_thumbnail s x p).2 = dirsEnsured s p ∨
      (generate_thumbnail s x p).2 = writtenState s p := by
  unfold generate_thumbnail
  split
  · left; rfl
  · split
    · split
      case _ s₁ heq =>
        unfold create_dir_all at heq
        split at heq
        · cases heq
          split
          · right; right; rfl
          · right; left; rfl
        · cases heq
      · left; rfl
    · left; rfl

theorem ensure_thumbnail_state (s : FsState) (a x r : FPath) :
    (ensure_thumbnail s a x r).2 = s ∨
      (ensure_thumbnail s a x r).2 = dirsEnsured s (get_thumbnail_path a r) ∨
      (ensure_thumbnail s a x r).2 = writtenState s (get_thumbnail_path a r) := by
  unfold ensure_thumbnail
  by_cases hc : cache_hit s x (get_thumbnail_path a r) = true
  · left; simp [hc]
  · rw [if_neg hc]
    have := generate_thumbnail_state s x (get_thumbnail_path a r)
    rcases hg : generate_thumbnail s x (get_thumbnail_path a r) with ⟨b, s'⟩
    rw [hg] at this
    cases b <;> simpa using this

theorem serve_thumbnail_state (s : FsState) (d r : FPath) :
    (serve_thumbnail s d r).2 = s ∨
      (serve_thumbnail s d r).2 =
        dirsEnsured s (get_thumbnail_path (thumb_dir_of d) r) ∨
      (serve_thumbnail s d r).2 =
        writtenState s (get_thumbnail_path (thumb_dir_of d) r) := by
  unfold serve_thumbnail
  by_cases h : (!pathExists s (d ++ r) || !is_image_file (d ++ r)) = true
  · left; simp [h]
  · rw [Bool.not_eq_true] at h
    rw [h]
    rcases he : ensure_thumbnail s (thumb_dir_of d) (d ++ r) r with ⟨o, s'⟩
    have := ensure_thumbnail_state s (thumb_dir_of d) (d ++ r) r
    rw [he] at this
    cases o <;> simpa using this

/-! ## C2: missing or non-image source is `NotFound`, no generation -/

/-- C2: for every resolve call, if the relative path joined to the root
directory does not exist or fails the image-extension check, the result is
`NotFound` and the filesystem state is untouched (no decode, no write). -/
theorem resolve_notFound_of_invalid_source (s : FsState) (d r : FPath)
    (h : pathExists s (d ++ r) = false ∨ is_image_file (d ++ r) = false) :
    serve_thumbnail s d r = (.notFound, s) := by
  rcases h with h | h <;> simp [serve_thumbnail, h]

/-- A filesystem holding one source image `pic/a.jpg`, a text file
`pic/notes.txt`, and an empty cache directory. -/
def stateA : FsState :=
  { file := fun p =>
      if p = ["pic", "a.jpg"] then some ⟨5, true, true, true⟩
      else if p = ["pic", "notes.txt"] then some ⟨3, true, true, true⟩
      else none,
    dir := fun p =>
      p = ["pic"] || p = ["pic", ".thumbnails"] || p = ([] : FPath),
    clock := 10 }

theorem resolve_notFound_of_invalid_source_witness :
    serve_thumbnail stateA ["pic"] ["notes.txt"] = (.notFound, stateA) ∧
    serve_thumbnail stateA ["pic"] ["missing.jpg"] = (.notFound, stateA) :=
  ⟨resolve_notFound_of_invalid_source stateA ["pic"] ["notes.txt"]
      (Or.inr (by decide)),
   resolve_notFound_of_invalid_source stateA ["pic"] ["missing.jpg"]
      (Or.inl (by decide))⟩

/-! ## C9: metadata failures on a cached entry force regeneration -/

/-- C9: when the candidate cache path exists but the metadata or
last-modified read of the source or of the candidate fails, the cached
entry is treated as invalid: `ensure_thumbnail` takes the generation
branch, and the cached file is not returned on the strength of a failed
timestamp comparison. -/
theorem resolve_regenerates_on_metadata_failure (s : FsState) (a x r : FPath)
    (_hex : pathExists s (get_thumbnail_path a r) = true)
    (h : getMtime s x = none ∨ getMtime s (get_thumbnail_path a r) = none) :
    ensure_thumbnail s a x r =
      (match generate_thumbnail s x (get_thumbnail_path a r) with
       | (true, t) => (some (get_thumbnail_path a r), t)
       | (false, t) => (none, t)) := by
  have hc : cache_hit s x (get_thumbnail_path a r) = false := by
    rcases h with h | h
    · unfold cache_hit
      rw [h]
      cases getMtime s (get_thumbnail_path a r) <;> simp
    · unfold cache_hit
      rw [h]
      cases getMtime s x <;> simp
  unfold ensure_thumbnail
  rw [hc]
  simp

/-- A filesystem where the cached thumbnail of `a.jpg` exists but the
source's `modified()` read fails. -/
def stateB : FsState :=
  { file := fun p =>
      if p = ["pic", "a.jpg"] then some ⟨5, false, true, true⟩
      else if p = ["pic", ".thumbnails", "a.jpg"] then some ⟨9, true, true, true⟩
      else none,
    dir := fun p =>
      p = ["pic"] || p = ["pic", ".thumbnails"] || p = ([] : FPath),
    clock := 10 }

theorem resolve_regenerates_on_metadata_failure_witness :
    ensure_thumbnail stateB ["pic", ".thumbnails"] ["pic", "a.jpg"] ["a.jpg"] =
      (match generate_thumbnail stateB ["pic", "a.jpg"]
          (get_thumbnail_path ["pic", ".thumbnails"] ["a.jpg"]) with
       | (true, t) => (some (get_thumbnail_path ["pic", ".thumbnails"] ["a.jpg"]), t)
       | (false, t) => (none, t)) :=
  resolve_regenerates_on_metadata_failure stateB ["pic", ".thumbnails"]
    ["pic", "a.jpg"] ["a.jpg"] (by decide) (Or.inl (by decide))

/-! ## C1: validity of the timestamp-based cache check -/

/-- C1: for a resolve call whose source exists and passes the image check:
(first conjunct) when the candidate cache path's modified time is at least
the source's, the candidate path is returned with the state — hence every
file and its modification time — unchanged, and a repeated call returns
the same answer; (second conjunct) when the source's modified time has
advanced strictly past the candidate's and generation succeeds, the
thumbnail is rewritten and its new modification time is strictly greater
than the old one. -/
theorem resolve_cache_validity (s : FsState) (d r : FPath) :
    (∀ u v : Nat,
      pathExists s (d ++ r) = true → is_image_file (d ++ r) = true →
      getMtime s (d ++ r) = some u →
      getMtime s (get_thumbnail_path (thumb_dir_of d) r) = some v →
      u ≤ v →
      serve_thumbnail s d r = (.ok (get_thumbnail_path (thumb_dir_of d) r), s) ∧
      getMtime (serve_thumbnail s d r).2 (get_thumbnail_path (thumb_dir_of d) r) =
        some v ∧
      serve_thumbnail (serve_thumbnail s d r).2 d r = serve_thumbnail s d r) ∧
    (∀ (f : FileData) (v : Nat),
      is_image_file (d ++ r) = true →
      s.file (d ++ r) = some f → f.mtimeOk = true →
      f.decodeOk = true → f.encodeOk = true →
      getMtime s (get_thumbnail_path (thumb_dir_of d) r) = some v →
      v < f.mtime → f.mtime ≤ s.clock →
      ((get_thumbnail_path (thumb_dir_of d) r).dropLast.inits.all
        (fun q => (s.file q).isNone)) = true →
      (serve_thumbnail s d r).1 = .ok (get_thumbnail_path (thumb_dir_of d) r) ∧
      getMtime (serve_thumbnail s d r).2 (get_thumbnail_path (thumb_dir_of d) r) =
        some s.clock ∧
      v < s.clock) := by
  constructor
  · intro u v hex him hmu hmv huv
    have hthumb : pathExists s (get_thumbnail_path (thumb_dir_of d) r) = true :=
      pathExists_of_getMtime hmv
    have hhit : cache_hit s (d ++ r) (get_thumbnail_path (thumb_dir_of d) r) = true := by
      unfold cache_hit
      rw [hmu, hmv, hthumb]
      simpa using huv
    have hserve : serve_thumbnail s d r =
        (.ok (get_thumbnail_path (thumb_dir_of d) r), s) := by
      unfold serve_thumbnail ensure_thumbnail
      rw [hex, him, hhit]
      simp
    refine ⟨hserve, ?_, ?_⟩
    · rw [hserve]; exact hmv
    · rw [hserve]; exact hserve
  · intro f v him hf hok hdec henc hmv hlt hclock hdirs
    have hmu : getMtime s (d ++ r) = some f.mtime := by
      simp [getMtime, hf, hok]
    have hex : pathExists s (d ++ r) = true := by
      simp [pathExists, hf]
    have hhit : cache_hit s (d ++ r) (get_thumbnail_path (thumb_dir_of d) r) = false := by
      unfold cache_hit
      rw [hmu, hmv]
      simp [Nat.not_le.mpr hlt]
    have hgen := generate_thumbnail_eq_some hf hdec henc hdirs
    have hserve : serve_thumbnail s d r =
        (.ok (get_thumbnail_path (thumb_dir_of d) r),
         writtenState s (get_thumbnail_path (thumb_dir_of d) r)) := by
      unfold serve_thumbnail ensure_thumbnail
      rw [hex, him, hhit, hgen]
      simp
    refine ⟨by rw [hserve], ?_, lt_of_lt_of_le hlt hclock⟩
    rw [hserve]
    simp [getMtime, writtenState]

/-- A filesystem with a fresh cached thumbnail for `pic/a.jpg`
(thumbnail written at time 7, source modified at time 5). -/
def stateHit : FsState :=
  { file := fun p =>
      if p = ["pic", "a.jpg"] then some ⟨5, true, true, true⟩
      else if p = ["pic", ".thumbnails", "a.jpg"] then some ⟨7, true, true, true⟩
      else none,
    dir := fun p =>
      p = ["pic"] || p = ["pic", ".thumbnails"] || p = ([] : FPath),
    clock := 10 }

/-- A filesystem whose cached thumbnail for `pic/a.jpg` is stale: the
source was modified at time 8, after the thumbnail's time 7. -/
def stateStale : FsState :=
  { file := fun p =>
      if p = ["pic", "a.jpg"] then some ⟨8, true, true, true⟩
      else if p = ["pic", ".thumbnails", "a.jpg"] then some ⟨7, true, true, true⟩
      else none,
    dir := fun p =>
      p = ["pic"] || p = ["pic", ".thumbnails"] || p = ([] : FPath),
    clock := 10 }

theorem resolve_cache_validity_witness :
    (serve_thumbnail stateHit ["pic"] ["a.jpg"] =
      (.ok ["pic", ".thumbnails", "a.jpg"], stateHit) ∧
     getMtime (serve_thumbnail stateHit ["pic"] ["a.jpg"]).2
        ["pic", ".thumbnails", "a.jpg"] = some 7 ∧
     serve_thumbnail (serve_thumbnail stateHit ["pic"] ["a.jpg"]).2 ["pic"] ["a.jpg"] =
       serve_thumbnail stateHit ["pic"] ["a.jpg"]) ∧
    ((serve_thumbnail stateStale ["pic"] ["a.jpg"]).1 =
      .ok ["pic", ".thumbnails", "a.jpg"] ∧
     getMtime (serve_thumbnail stateStale ["pic"] ["a.jpg"]).2
        ["pic", ".thumbnails", "a.jpg"] = some 10 ∧
     7 < 10) :=
  ⟨(resolve_cache_validity stateHit ["pic"] ["a.jpg"]).1 5 7 (by decide) (by decide)
      (by decide) (by decide) (by decide),
   (resolve_cache_validity stateStale ["pic"] ["a.jpg"]).2 ⟨8, true, true, true⟩ 7
      (by decide) (by decide) (by decide) (by decide) (by decide) (by decide)
      (by decide) (by decide) (by decide)⟩

/-! ## C4: generation writes at the mirrored path; failures are 500s -/

/-- C4: for a resolve call that reaches generation (source valid, cache
check negative): on success the thumbnail is written at the candidate path
`cacheDir ++ relativePath`, every parent directory of that path is present
afterwards, and the candidate path is returned; `create_dir_all` never
fails because of pre-existing directories (only a prefix occupied by a
regular file fails it); and a failing generation produces
`GenerationFailed`, not `NotFound`, leaving the state unchanged. -/
theorem resolve_generation_contract :
    (∀ (s : FsState) (d r : FPath) (t : FsState),
      pathExists s (d ++ r) = true → is_image_file (d ++ r) = true →
      cache_hit s (d ++ r) (get_thumbnail_path (thumb_dir_of d) r) = false →
      generate_thumbnail s (d ++ r) (get_thumbnail_path (thumb_dir_of d) r) =
        (true, t) →
      serve_thumbnail s d r = (.ok (get_thumbnail_path (thumb_dir_of d) r), t) ∧
      (∀ q ∈ (get_thumbnail_path (thumb_dir_of d) r).dropLast.inits,
        t.dir q = true) ∧
      t.file (get_thumbnail_path (thumb_dir_of d) r) =
        some ⟨s.clock, true, true, true⟩) ∧
    (∀ (s : FsState) (p : FPath),
      (p.inits.all fun q => (s.file q).isNone) = true →
      (create_dir_all s p).isSome = true) ∧
    (∀ (s : FsState) (d r : FPath) (t : FsState),
      pathExists s (d ++ r) = true → is_image_file (d ++ r) = true →
      cache_hit s (d ++ r) (get_thumbnail_path (thumb_dir_of d) r) = false →
      generate_thumbnail s (d ++ r) (get_thumbnail_path (thumb_dir_of d) r) =
        (false, t) →
      serve_thumbnail s d r = (.generationFailed, t)) := by
  refine ⟨?_, ?_, ?_⟩
  · intro s d r t hex him hhit hgen
    have ht : t = writtenState s (get_thumbnail_path (thumb_dir_of d) r) := by
      have h1 : (generate_thumbnail s (d ++ r)
          (get_thumbnail_path (thumb_dir_of d) r)).1 = true := by rw [hgen]
      have h2 := generate_thumbnail_fst_eq h1
      rw [hgen] at h2
      exact h2
    constructor
    · unfold serve_thumbnail ensure_thumbnail
      rw [hex, him, hhit, hgen]
      simp
    constructor
    · intro q hq
      rw [ht]
      show (if q ∈ _ then true else s.dir q) = true
      rw [if_pos hq]
    · rw [ht]
      simp [writtenState]
  · intro s p h
    simp [create_dir_all, h]
  · intro s d r t hex him hhit hgen
    unfold serve_thumbnail ensure_thumbnail
    rw [hex, him, hhit, hgen]
    simp

/-- A filesystem with a source image `pic/b/cat.png` in a subdirectory and
no cached thumbnail at all (the cache directory is empty). -/
def stateGen : FsState :=
  { file := fun p =>
      if p = ["pic", "b", "cat.png"] then some ⟨5, true, true, true⟩
      else none,
    dir := fun p =>
      p = ["pic"] || p = ["pic", "b"] || p = ["pic", ".thumbnails"] ||
        p = ([] : FPath),
    clock := 10 }

/-- A filesystem whose source image `pic/bad.png` exists but does not
decode (corrupt bytes). -/
def stateBad : FsState :=
  { file := fun p =>
      if p = ["pic", "bad.png"] then some ⟨5, true, false, true⟩
      else none,
    dir := fun p =>
      p = ["pic"] || p = ["pic", ".thumbnails"] || p = ([] : FPath),
    clock := 10 }

theorem resolve_generation_contract_witness :
    (serve_thumbnail stateGen ["pic"] ["b", "cat.png"] =
      (.ok ["pic", ".thumbnails", "b", "cat.png"],
       writtenState stateGen ["pic", ".thumbnails", "b", "cat.png"]) ∧
     (∀ q ∈ (["pic", ".thumbnails", "b", "cat.png"] : FPath).dropLast.inits,
       (writtenState stateGen ["pic", ".thumbnails", "b", "cat.png"]).dir q = true) ∧
     (writtenState stateGen ["pic", ".thumbnails", "b", "cat.png"]).file
        ["pic", ".thumbnails", "b", "cat.png"] = some ⟨10, true, true, true⟩) ∧
    serve_thumbnail stateBad ["pic"] ["bad.png"] = (.generationFailed, stateBad) :=
  ⟨resolve_generation_contract.1 stateGen ["pic"] ["b", "cat.png"]
      (writtenState stateGen ["pic", ".thumbnails", "b", "cat.png"])
      (by decide) (by decide) (by decide)
      (generate_thumbnail_eq_some (f := ⟨5, true, true, true⟩) (by decide)
        (by decide) (by decide) (by decide)),
   resolve_generation_contract.2.2 stateBad ["pic"] ["bad.png"] stateBad
      (by decide) (by decide) (by decide) rfl⟩

/-! ## C10: the only write is the candidate path and its parents -/

/-- C10: a resolve call writes at most the candidate cache path and its
(created-if-missing) parent directories: every other path's file record —
the source image included, inside or outside the cache directory — is
unchanged, no existing file is ever deleted, and the clock is untouched. -/
theorem resolve_frame (s : FsState) (d r p : FPath) :
    (p ≠ get_thumbnail_path (thumb_dir_of d) r →
      (serve_thumbnail s d r).2.file p = s.file p) ∧
    ((s.file p).isSome = true → ((serve_thumbnail s d r).2.file p).isSome = true) ∧
    ((serve_thumbnail s d r).2.dir p = s.dir p ∨
      (p ∈ (get_thumbnail_path (thumb_dir_of d) r).dropLast.inits ∧
        (serve_thumbnail s d r).2.dir p = true)) ∧
    (serve_thumbnail s d r).2.clock = s.clock := by
  rcases serve_thumbnail_state s d r with h | h | h <;> rw [h]
  · exact ⟨fun _ => rfl, fun hp => hp, Or.inl rfl, rfl⟩
  · refine ⟨fun _ => rfl, fun hp => hp, ?_, rfl⟩
    by_cases hq : p ∈ (get_thumbnail_path (thumb_dir_of d) r).dropLast.inits
    · refine Or.inr ⟨hq, ?_⟩
      show (if p ∈ _ then true else s.dir p) = true
      rw [if_pos hq]
    · refine Or.inl ?_
      show (if p ∈ _ then true else s.dir p) = s.dir p
      rw [if_neg hq]
  · refine ⟨fun hp => ?_, fun hp => ?_, ?_, rfl⟩
    · simp [writtenState, hp]
    · by_cases hq : p = get_thumbnail_path (thumb_dir_of d) r
      · simp [writtenState, hq]
      · simpa [writtenState, hq] using hp
    · by_cases hq : p ∈ (get_thumbnail_path (thumb_dir_of d) r).dropLast.inits
      · refine Or.inr ⟨hq, ?_⟩
        show (if p ∈ _ then true else s.dir p) = true
        rw [if_pos hq]
      · refine Or.inl ?_
        show (if p ∈ _ then true else s.dir p) = s.dir p
        rw [if_neg hq]

theorem resolve_frame_witness :
    (serve_thumbnail stateGen ["pic"] ["b", "cat.png"]).2.file ["pic", "b", "cat.png"] =
      stateGen.file ["pic", "b", "cat.png"] ∧
    ((serve_thumbnail stateGen ["pic"] ["b", "cat.png"]).2.file
        ["pic", "b", "cat.png"]).isSome = true :=
  ⟨(resolve_frame stateGen ["pic"] ["b", "cat.png"] ["pic", "b", "cat.png"]).1
      (by decide),
   (resolve_frame stateGen ["pic"] ["b", "cat.png"] ["pic", "b", "cat.png"]).2.1
      (by decide)⟩

/-! ## C7: thumbnail dimensions -/

/-- C7: for positive source dimensions the computed thumbnail dimensions
have their longer side equal to `THUMB_SIZE = 200`, and each side is the
truncation of the exactly scaled side (`side * 200 / max w h`), so the
aspect ratio matches the source within the rounding expressed by the two
division bounds. -/
theorem thumbnail_dimensions_spec (w h : Nat) (hw : 0 < w) (hh : 0 < h) :
    max (thumbnail_dimensions w h).1 (thumbnail_dimensions w h).2 = 200 ∧
    ((thumbnail_dimensions w h).1 * max w h ≤ w * 200 ∧
      w * 200 < ((thumbnail_dimensions w h).1 + 1) * max w h) ∧
    ((thumbnail_dimensions w h).2 * max w h ≤ h * 200 ∧
      h * 200 < ((thumbnail_dimensions w h).2 + 1) * max w h) := by
  have hm : 0 < max w h := lt_of_lt_of_le hw (le_max_left w h)
  refine ⟨?_, ⟨?_, ?_⟩, ⟨?_, ?_⟩⟩
  · unfold thumbnail_dimensions
    rcases le_total w h with hwh | hhw
    · rw [max_eq_right hwh]
      have h2 : h * 200 / h = 200 := Nat.mul_div_cancel_left 200 hh
      have h1 : w * 200 / h ≤ 200 := by
        calc w * 200 / h ≤ h * 200 / h :=
              Nat.div_le_div_right (Nat.mul_le_mul_right 200 hwh)
          _ = 200 := h2
      simp [h2, h1, max_eq_right]
    · rw [max_eq_left hhw]
      have h1 : w * 200 / w = 200 := Nat.mul_div_cancel_left 200 hw
      have h2 : h * 200 / w ≤ 200 := by
        calc h * 200 / w ≤ w * 200 / w :=
              Nat.div_le_div_right (Nat.mul_le_mul_right 200 hhw)
          _ = 200 := h1
      simp [h1, h2, max_eq_left]
  · exact Nat.div_mul_le_self (w * 200) (max w h)
  · exact (Nat.div_lt_iff_lt_mul hm).mp (Nat.lt_succ_self _)
  · exact Nat.div_mul_le_self (h * 200) (max w h)
  · exact (Nat.div_lt_iff_lt_mul hm).mp (Nat.lt_succ_self _)

theorem thumbnail_dimensions_spec_witness :
    (max (thumbnail_dimensions 300 600).1 (thumbnail_dimensions 300 600).2 = 200 ∧
      ((thumbnail_dimensions 300 600).1 * max 300 600 ≤ 300 * 200 ∧
        300 * 200 < ((thumbnail_dimensions 300 600).1 + 1) * max 300 600) ∧
      ((thumbnail_dimensions 300 600).2 * max 300 600 ≤ 600 * 200 ∧
        600 * 200 < ((thumbnail_dimensions 300 600).2 + 1) * max 300 600)) ∧
    thumbnail_dimensions 300 600 = (100, 200) :=
  ⟨thumbnail_dimensions_spec 300 600 (by decide) (by decide), by decide⟩

/-! ## Helper lemmas about the discovery embedding -/

theorem collectEntries_append (rel : List String) (x y : List Entry) :
    collectEntries rel (x ++ y) = collectEntries rel x ++ collectEntries rel y := by
  induction x with
  | nil => simp [collectEntries]
  | cons e es ih => simp [collectEntries, ih]

theorem is_image_file_iff {p : FPath} {name : String}
    (h : p.getLast? = some name) :
    is_image_file p = true ↔
      ∃ e, extension name = some e ∧
        lowercase e ∈ (["jpg", "jpeg", "png", "gif", "webp", "bmp", "ico"] :
          List String) := by
  unfold is_image_file
  rw [h]
  cases hext : extension name with
  | none => simp [hext]
  | some e =>
    simp only [hext, Option.some.injEq]
    constructor
    · intro hb
      refine ⟨e, rfl, ?_⟩
      simp only [Bool.or_eq_true, decide_eq_true_eq] at hb
      simp only [List.mem_cons, List.not_mem_nil, or_false]
      tauto
    · rintro ⟨e', rfl, hmem⟩
      simp only [List.mem_cons, List.not_mem_nil, or_false] at hmem
      simp only [Bool.or_eq_true, decide_eq_true_eq]
      tauto

/-! ## C5: a file is kept iff its lowercased extension is allowed -/

/-- C5: a file entry met during discovery is included in the output if and
only if its name's extension, lowercased, is one of
`jpg, jpeg, png, gif, webp, bmp, ico`; a file with no extension is never
included. -/
theorem discover_extension_filter (rel : List String) (name : String) :
    ((rel ++ [name]) ∈ collectEntry rel (.file name) ↔
      ∃ e, extension name = some e ∧
        lowercase e ∈ (["jpg", "jpeg", "png", "gif", "webp", "bmp", "ico"] :
          List String)) ∧
    (extension name = none → collectEntry rel (.file name) = []) := by
  have hgl : (rel ++ [name]).getLast? = some name := List.getLast?_concat rel
  constructor
  · rw [← is_image_file_iff hgl]
    unfold collectEntry
    by_cases him : is_image_file (rel ++ [name]) = true
    · simp [him]
    · simp [him]
  · intro hext
    unfold collectEntry
    have him : is_image_file (rel ++ [name]) = false := by
      simp [is_image_file, hgl, hext]
    rw [him]
    simp

theorem discover_extension_filter_witness :
    ((([] : List String) ++ ["cat.PNG"]) ∈ collectEntry [] (.file "cat.PNG") ↔
      ∃ e, extension "cat.PNG" = some e ∧
        lowercase e ∈ (["jpg", "jpeg", "png", "gif", "webp", "bmp", "ico"] :
          List String)) ∧
    collectEntry [] (.file "README") = [] :=
  ⟨(discover_extension_filter [] "cat.PNG").1,
   (discover_extension_filter [] "README").2 (by decide)⟩

/-! ## C8: failed directory reads are absorbed -/

/-- C8: a directory whose entries cannot be read contributes no paths:
walking it yields `[]`, deleting such an entry from a directory listing
does not change the collected output, and an unreadable root yields the
empty image list — discovery never fails as a whole. -/
theorem discover_absorbs_read_failures :
    (∀ (rel : List String) (n : String), collectEntry rel (.dir n none) = []) ∧
    (∀ (rel : List String) (x y : List Entry) (n : String),
      collectEntries rel (x ++ .dir n none :: y) = collectEntries rel (x ++ y)) ∧
    api_images none = [] := by
  have h1 : ∀ (rel : List String) (n : String),
      collectEntry rel (.dir n none) = [] := by
    intro rel n
    unfold collectEntry
    split <;> rfl
  refine ⟨h1, ?_, rfl⟩
  intro rel x y n
  rw [collectEntries_append, collectEntries_append]
  show collectEntries rel x ++ collectEntries rel (Entry.dir n none :: y) = _
  rw [show collectEntries rel (Entry.dir n none :: y) =
    collectEntry rel (Entry.dir n none) ++ collectEntries rel y from rfl]
  rw [h1]
  simp

mutual

theorem collectEntry_shape (rel : List String) (e : Entry) :
    ∀ p ∈ collectEntry rel e, ∃ q, p = rel ++ q ∧ ".thumbnails" ∉ q := by
  cases e with
  | file name =>
    intro p hp
    unfold collectEntry at hp
    by_cases him : is_image_file (rel ++ [name]) = true
    · rw [him] at hp
      simp only [if_true, List.mem_singleton] at hp
      subst hp
      refine ⟨[name], rfl, ?_⟩
      rcases eq_or_ne name ".thumbnails" with rfl | hne
      · exfalso
        have : is_image_file (rel ++ [".thumbnails"]) = false := by
          have h1 : (rel ++ [".thumbnails"]).getLast? = some ".thumbnails" :=
            List.getLast?_concat rel
          have h2 : extension ".thumbnails" = none := by decide
          simp [is_image_file, h1, h2]
        rw [this] at him
        cases him
      · exact fun hmem => hne (List.mem_singleton.mp hmem).symm
    · rw [Bool.not_eq_true] at him
      rw [him] at hp
      simp at hp
  | dir name c =>
    intro p hp
    unfold collectEntry at hp
    by_cases hn : name = ".thumbnails"
    · rw [if_pos hn] at hp
      simp at hp
    · rw [if_neg hn] at hp
      cases c with
      | none => simp at hp
      | some cs =>
        rcases collectEntries_shape (rel ++ [name]) cs p hp with ⟨q, hq, hnq⟩
        refine ⟨name :: q, ?_, ?_⟩
        · rw [hq]; simp
        · intro hmem
          rcases List.mem_cons.mp hmem with h | h
          · exact hn h.symm
          · exact hnq h

theorem collectEntries_shape (rel : List String) (es : List Entry) :
    ∀ p ∈ collectEntries rel es, ∃ q, p = rel ++ q ∧ ".thumbnails" ∉ q := by
  cases es with
  | nil => intro p hp; simp [collectEntries] at hp
  | cons e es =>
    intro p hp
    rw [show collectEntries rel (e :: es) =
      collectEntry rel e ++ collectEntries rel es from rfl] at hp
    rcases List.mem_append.mp hp with h | h
    · exact collectEntry_shape rel e p h
    · exact collectEntries_shape rel es p h

end

/-! ## C3: nothing inside the cache directory is ever discovered -/

/-- C3: a directory entry named `.thumbnails` is skipped without being
descended into (it contributes `[]` whatever its contents), and
consequently no path in `api_images`' output has `.thumbnails` as a
segment — no file inside the cache directory ever appears, regardless of
its extension. -/
theorem discover_excludes_cache_dir :
    (∀ (rel : List String) (c : Option (List Entry)),
      collectEntry rel (.dir ".thumbnails" c) = []) ∧
    (∀ (root : Option (List Entry)) (s : String),
      s ∈ api_images root → ∃ p, s = renderPath p ∧ ".thumbnails" ∉ p) := by
  constructor
  · intro rel c
    unfold collectEntry
    rw [if_pos rfl]
  · intro root s hs
    unfold api_images at hs
    rw [List.mem_insertionSort] at hs
    rcases List.mem_map.mp hs with ⟨p, hp, rfl⟩
    cases root with
    | none => simp [collect_images] at hp
    | some es =>
      rcases collectEntries_shape [] es p hp with ⟨q, hq, hnq⟩
      simp only [List.nil_append] at hq
      subst hq
      exact ⟨p, rfl, hnq⟩

theorem discover_excludes_cache_dir_witness :
    ∃ p, "a.jpg" = renderPath p ∧ ".thumbnails" ∉ p :=
  discover_excludes_cache_dir.2
    (some [Entry.dir ".thumbnails" (some [Entry.file "x.png"]), Entry.file "a.jpg"])
    "a.jpg" (by decide)

/-! ## Order properties of the sorting relation -/

theorem charListLe_total : ∀ u v : List Char,
    charListLe u v = true ∨ charListLe v u = true := by
  intro u
  induction u with
  | nil => intro v; left; simp [charListLe]
  | cons a as ih =>
    intro v
    cases v with
    | nil => right; simp [charListLe]
    | cons b bs =>
      rcases lt_trichotomy a b with h | h | h
      · left; simp [charListLe, h]
      · subst h
        rcases ih bs with h' | h'
        · left; simp [charListLe, lt_irrefl, h']
        · right; simp [charListLe, lt_irrefl, h']
      · right; simp [charListLe, h]

theorem charListLe_trans : ∀ u v w : List Char,
    charListLe u v = true → charListLe v w = true → charListLe u w = true := by
  intro u
  induction u with
  | nil => intro v w _ _; simp [charListLe]
  | cons a as ih =>
    intro v w h1 h2
    cases v with
    | nil => simp [charListLe] at h1
    | cons b bs =>
      cases w with
      | nil => simp [charListLe] at h2
      | cons c cs =>
        unfold charListLe at h1 h2 ⊢
        by_cases hab : a < b
        · rw [if_pos hab] at h1
          by_cases hbc : b < c
          · rw [if_pos (lt_trans hab hbc)]
          · have hcb : ¬ c < b := by
              intro hcb
              rw [if_neg hbc, if_pos hcb] at h2
              cases h2
            have hbc' : b = c := le_antisymm (not_lt.mp hcb) (not_lt.mp hbc)
            subst hbc'
            rw [if_pos hab]
        · by_cases hba : b < a
          · rw [if_neg hab, if_pos hba] at h1
            cases h1
          · have hab' : a = b := le_antisymm (not_lt.mp hba) (not_lt.mp hab)
            subst hab'
            rw [if_neg (lt_irrefl a), if_neg (lt_irrefl a)] at h1
            by_cases hac : a < c
            · rw [if_pos hac]
            · by_cases hca : c < a
              · rw [if_neg hac, if_pos hca] at h2
                cases h2
              · rw [if_neg hac, if_neg hca] at h2 ⊢
                exact ih bs cs h1 h2

theorem charListLe_antisymm : ∀ u v : List Char,
    charListLe u v = true → charListLe v u = true → u = v := by
  intro u
  induction u with
  | nil =>
    intro v _ h2
    cases v with
    | nil => rfl
    | cons b bs => simp [charListLe] at h2
  | cons a as ih =>
    intro v h1 h2
    cases v with
    | nil => simp [charListLe] at h1
    | cons b bs =>
      unfold charListLe at h1 h2
      by_cases hab : a < b
      · rw [if_neg (lt_asymm hab), if_pos hab] at h2
        cases h2
      · by_cases hba : b < a
        · rw [if_neg hab, if_pos hba] at h1
          cases h1
        · have hab' : a = b := le_antisymm (not_lt.mp hba) (not_lt.mp hab)
          subst hab'
          rw [if_neg (lt_irrefl a), if_neg (lt_irrefl a)] at h1 h2
          rw [ih bs h1 h2]

instance : IsTotal String strLeProp :=
  ⟨fun a b => charListLe_total a.toList b.toList⟩

instance : IsTrans String strLeProp :=
  ⟨fun a b c => charListLe_trans a.toList b.toList c.toList⟩

instance : IsAntisymm String strLeProp :=
  ⟨fun a b h1 h2 =>
    String.toList_inj.mp (charListLe_antisymm a.toList b.toList h1 h2)⟩

/-! ## Reordering directory listings -/

mutual

/-- Two observed directory entries describing the same filesystem state:
equal files, or equally named directories whose `read_dir` behaves the
same and whose successful listings enumerate the same entries, possibly in
different orders (recursively). -/
inductive EntryEquiv : Entry → Entry → Prop where
  | file (n : String) : EntryEquiv (.file n) (.file n)
  | dirFailed (n : String) : EntryEquiv (.dir n none) (.dir n none)
  | dirOk (n : String) {u v : List Entry} :
      EntriesEquiv u v → EntryEquiv (.dir n (some u)) (.dir n (some v))

/-- Permutation-up-to-`EntryEquiv` of directory listings, in the
insert-anywhere presentation. -/
inductive EntriesEquiv : List Entry → List Entry → Prop where
  | nil : EntriesEquiv [] []
  | cons {a b : Entry} {u l r : List Entry} :
      EntryEquiv a b → EntriesEquiv u (l ++ r) →
      EntriesEquiv (a :: u) (l ++ b :: r)

end

mutual

theorem collectEntry_perm {a b : Entry} (h : EntryEquiv a b) :
    ∀ rel : List String, (collectEntry rel a).Perm (collectEntry rel b) := by
  cases h with
  | file n => exact fun rel => List.Perm.refl _
  | dirFailed n => exact fun rel => List.Perm.refl _
  | dirOk n h' =>
    intro rel
    by_cases hn : n = ".thumbnails"
    · subst hn
      unfold collectEntry
      rw [if_pos rfl, if_pos rfl]
    · unfold collectEntry
      rw [if_neg hn, if_neg hn]
      exact collectEntries_perm h' (rel ++ [n])

theorem collectEntries_perm {u v : List Entry} (h : EntriesEquiv u v) :
    ∀ rel : List String, (collectEntries rel u).Perm (collectEntries rel v) := by
  cases h with
  | nil => exact fun rel => List.Perm.refl _
  | @cons a b u l r h1 h2 =>
    intro rel
    have p1 := collectEntry_perm h1 rel
    have p2 := collectEntries_perm h2 rel
    rw [collectEntries_append] at p2
    show (collectEntry rel a ++ collectEntries rel u).Perm
      (collectEntries rel (l ++ b :: r))
    rw [collectEntries_append,
      show collectEntries rel (b :: r) =
        collectEntry rel b ++ collectEntries rel r from rfl]
    exact (p1.append p2).trans (List.perm_append_comm_assoc _ _ _)

end

/-! ## C6: sorted, enumeration-order independent, deterministic -/

/-- C6: the image list is sorted by the byte-lexicographic order on
rendered relative paths; listings that enumerate the same directory
contents in any orders produce the same output; and, `api_images` being a
pure function of the observed tree, repeated calls over an unchanged
filesystem return the same sequence. -/
theorem discover_sorted_deterministic :
    (∀ root : Option (List Entry), (api_images root).Sorted strLeProp) ∧
    (∀ u v : List Entry, EntriesEquiv u v →
      api_images (some u) = api_images (some v)) ∧
    (∀ root : Option (List Entry), api_images root = api_images root) := by
  refine ⟨?_, ?_, fun root => rfl⟩
  · intro root
    exact List.sorted_insertionSort strLeProp _
  · intro u v h
    have hp : (collectEntries [] u).Perm (collectEntries [] v) :=
      collectEntries_perm h []
    have hq : ((collect_images [] (some u)).map renderPath).Perm
        ((collect_images [] (some v)).map renderPath) := hp.map renderPath
    exact List.eq_of_perm_of_sorted
      ((List.perm_insertionSort strLeProp _).trans
        (hq.trans (List.perm_insertionSort strLeProp _).symm))
      (List.sorted_insertionSort strLeProp _)
      (List.sorted_insertionSort strLeProp _)

theorem discover_sorted_deterministic_witness :
    api_images (some [Entry.file "b.png", Entry.file "a.jpg"]) =
      api_images (some [Entry.file "a.jpg", Entry.file "b.png"]) :=
  discover_sorted_deterministic.2.1 _ _
    (EntriesEquiv.cons (l := [Entry.file "a.jpg"]) (r := [])
      (EntryEquiv.file "b.png")
      (EntriesEquiv.cons (l := []) (r := [])
        (EntryEquiv.file "a.jpg") EntriesEquiv.nil))

end PicUrl
